import Mathlib

/-!
Verification of the bintrans binary-protocol codec against its design
specification.  The Python sources (`__init__.py` alias `bintools`,
`field.py`, `protocol_block.py`) are shallowly embedded below: byte
streams become `List Nat` (each element a byte value), Python exceptions
become an explicit `PyErr` error type threaded through `Except`, and the
module-level diagnostics sink (`dbg.warning`) becomes a warning counter
returned alongside each result.
-/

/-- Python exception kinds raised by the embedded code paths. -/
inductive PyErr where
  | overflowError
  | valueError
  | indexError
  | attributeError
  | nameError
  | recursionError
  | unicodeEncodeError
  | unicodeDecodeError
  deriving DecidableEq, Repr

/-- Endianness tokens accepted by `_order_bytes` (the `NameError` branch for
any other string is outside this closed type). -/
inductive Endianness where
  | little
  | big
  deriving DecidableEq, Repr

/-- `_order_bytes` from `__init__.py`: "little" reverses the sequence,
"big" keeps it.  Used by `split_bits` on its per-slice segment lists. -/
def orderBytes (l : List (Nat × Nat)) : Endianness → List (Nat × Nat)
  | .little => l.reverse
  | .big => l

/-- `get_mask(num_bits, offset)` from `__init__.py`:
`sum([2**i for i in range(num_bits)]) << offset`. -/
def get_mask (numBits : Nat) (offset : Nat) : Nat :=
  (((List.range numBits).map (fun i => 2 ^ i)).sum) <<< offset

/-- `peek_bytes(stream, num)` from `__init__.py`:
`[stream[i] for i in range(num)]`.  Indexing past the end raises
`IndexError` before any mutation, so the stream is never changed;
on success the first `num` bytes are returned. -/
def peekBytes (stream : List Nat) (num : Nat) : Option (List Nat) :=
  if num ≤ stream.length then some (stream.take num) else none

/-- `pop_bytes(stream, num)` from `__init__.py`:
`[stream.pop(0) for _ in range(num)]`.  Each iteration removes the head of
the stream; `pop(0)` on an empty stream raises `IndexError`, but the bytes
already popped by earlier iterations stay removed.  The second component is
the stream's final state (on failure: whatever survived the partial pops). -/
def popBytes (stream : List Nat) (num : Nat) : Option (List Nat) × List Nat :=
  match num, stream with
  | 0, s => (some [], s)
  | _ + 1, [] => (none, [])
  | n + 1, b :: s =>
    match popBytes s n with
    | (some bs, s') => (some (b :: bs), s')
    | (none, s') => (none, s')

/-- Cursor state of `split_bits`' slicing loop: the not-yet-popped bytes,
the current `working_byte`, and `working_byte_bits_consumed`. -/
structure SliceState where
  bytes : List Nat
  workingByte : Nat
  wbc : Nat
  deriving Repr

/-- Inner `while slice_bits_consumed < slice_length` loop of `split_bits`.
`need` is the number of bits the current slice still requires.  Each
iteration consumes `capped = min(need, 8 - wbc) ≥ 1` bits, so the loop runs
at most `need` times; `fuel` (always called with `fuel = slice_length`)
bounds the recursion structurally without changing the computed value. -/
def consumeSlice (fuel : Nat) (st : SliceState) (need : Nat) :
    List (Nat × Nat) × SliceState :=
  match fuel with
  | 0 => ([], st)
  | fuel' + 1 =>
    if need = 0 then ([], st)
    else
      -- if the working byte has been exhausted, pop a new one
      let (wb, bytes) :=
        if st.wbc = 0 then (st.bytes.headD 0, st.bytes.tail)
        else (st.workingByte, st.bytes)
      let capped := min need (8 - st.wbc)
      let mask := get_mask capped 0
      let seg := (wb &&& mask, capped)
      let wbc' := (st.wbc + capped) % 8
      let wb' := wb >>> capped
      let (rest, stOut) := consumeSlice fuel' ⟨bytes, wb', wbc'⟩ (need - capped)
      (seg :: rest, stOut)

/-- Outer `for slice_length in slice_lengths` loop of `split_bits`: gather
each slice's segments, reorder them per the endianness rule, and fold
`myslice = (myslice << n) + v` left to right. -/
def splitBitsLoop (st : SliceState) (lens : List Nat) (e : Endianness) :
    List Nat :=
  match lens with
  | [] => []
  | len :: rest =>
    let (segs, st') := consumeSlice len st len
    let myslice := (orderBytes segs e).foldl (fun acc vn => (acc <<< vn.2) + vn.1) 0
    myslice :: splitBitsLoop st' rest e

/-- Outcome of a `split_bits` call: the returned slices or the raised
error, the stream's state after the call, and how many warnings were
sent to the diagnostics sink. -/
structure SplitResult where
  result : Except PyErr (List Nat)
  buffer : List Nat
  warnings : Nat
  deriving Repr

/-- `split_bits(stream, *slice_lengths, consume, endianness)` from
`__init__.py`.  Raises `OverflowError` (before touching the stream and
before the warning check) if `ceil(sum(slice_lengths)/8)` exceeds the
stream length; warns once if the requested bits do not fill whole bytes;
reads `bytes_required` bytes (removing them only when `consume`), then runs
the slicing loop. -/
def splitBits (stream : List Nat) (lens : List Nat) (consume : Bool)
    (e : Endianness) : SplitResult :=
  let bitsRequested := lens.sum
  let bytesRequired := (bitsRequested + 7) / 8
  if stream.length < bytesRequired then
    ⟨.error .overflowError, stream, 0⟩
  else
    let warns := if bitsRequested % 8 ≠ 0 then 1 else 0
    let mybytes := stream.take bytesRequired
    let buffer' := if consume then stream.drop bytesRequired else stream
    ⟨.ok (splitBitsLoop ⟨mybytes, 0, 0⟩ lens e), buffer', warns⟩

/-- C1 counterexample: on the buffer `0xCB, 0xDF` with widths `[1,15]`,
`split_bits` returns `[1, 28645]` under little endianness and `[1, 26079]`
under big endianness — not the claimed `[1, 32233]` and `[1, 53755]`
(the latter does not even fit in 15 bits). -/
theorem C1_counterexample :
    (splitBits [0xCB, 0xDF] [1, 15] true .little).result = .ok [1, 28645] ∧
      [1, 28645] ≠ [1, 32233] ∧
      (splitBits [0xCB, 0xDF] [1, 15] true .big).result = .ok [1, 26079] ∧
      [1, 26079] ≠ [1, 53755] :=
  ⟨rfl, by decide, rfl, by decide⟩

/-- C1 (amended): for the buffer `0xCB, 0xDF`, `split_bits` with widths
`[1,15]` returns `[1, 28645]` little-endian and `[1, 26079]` big-endian —
the byte-crossing 15-bit slice has segments `(0xCB >> 1, 7 bits)` then
`(0xDF, 8 bits)` in consumption order, reordered per the endianness rule
and folded with `accumulator = (accumulator << width) + value`:
little `(0xDF << 7) + (0xCB >> 1) = 28645`,
big `((0xCB >> 1) << 8) + 0xDF = 26079`. -/
theorem C1_amended :
    (splitBits [0xCB, 0xDF] [1, 15] true .little).result =
        .ok [0xCB &&& 1, ((0xDF <<< 7) + (0xCB >>> 1) : Nat)] ∧
      (splitBits [0xCB, 0xDF] [1, 15] true .big).result =
        .ok [0xCB &&& 1, (((0xCB >>> 1) <<< 8) + 0xDF : Nat)] :=
  ⟨rfl, rfl⟩

/-- C3 counterexample: `pop_bytes` on the two-byte buffer `[1, 2]` with a
request of 3 bytes fails, but it does not leave the buffer unchanged — the
element-by-element `stream.pop(0)` loop has already emptied it. -/
theorem C3_counterexample :
    popBytes [1, 2] 3 = (none, []) ∧ ([] : List Nat) ≠ [1, 2] :=
  ⟨rfl, by decide⟩

/-- C3 (amended): for every buffer and every request size `n` greater than
the buffer's current length, both `peek_bytes` and `pop_bytes` fail with an
Underrun error; `peek_bytes` leaves the buffer unchanged (it never mutates),
but `pop_bytes` removes every byte the buffer held before failing. -/
theorem C3_amended (s : List Nat) (n : Nat) (h : s.length < n) :
    peekBytes s n = none ∧ (popBytes s n).1 = none ∧ (popBytes s n).2 = [] := by
  refine ⟨?_, ?_⟩
  · unfold peekBytes
    rw [if_neg (by omega)]
  · induction s generalizing n with
    | nil =>
      cases n with
      | zero => omega
      | succ m => exact ⟨rfl, rfl⟩
    | cons b s' ih =>
      cases n with
      | zero => simp at h
      | succ m =>
        have hm : s'.length < m := by simpa using h
        obtain ⟨h1, h2⟩ := ih m hm
        constructor
        · show (popBytes (b :: s') (m + 1)).1 = none
          unfold popBytes
          rcases hpop : popBytes s' m with ⟨r, s''⟩
          rw [hpop] at h1
          simp at h1
          subst h1
          simp
        · show (popBytes (b :: s') (m + 1)).2 = []
          unfold popBytes
          rcases hpop : popBytes s' m with ⟨r, s''⟩
          rw [hpop] at h1 h2
          simp at h1 h2
          subst h1
          subst h2
          simp

/-- C3 witness: the amended theorem applied at the concrete buffer `[1, 2]`
with request size 3. -/
theorem C3_witness :
    peekBytes [1, 2] 3 = none ∧ (popBytes [1, 2] 3).1 = none ∧
      (popBytes [1, 2] 3).2 = [] :=
  C3_amended [1, 2] 3 (by decide)

/-- C6: whenever `ceil(sum(widths)/8)` exceeds the number of bytes in the
buffer, `split_bits` raises Overflow, leaves the buffer untouched (in both
consuming and peeking modes), and emits no warning — the overflow check
precedes both the warning and any byte consumption. -/
theorem C6_overflow (stream : List Nat) (lens : List Nat) (consume : Bool)
    (e : Endianness) (h : stream.length < (lens.sum + 7) / 8) :
    splitBits stream lens consume e = ⟨.error .overflowError, stream, 0⟩ := by
  unfold splitBits
  rw [if_pos h]

/-- C6 witness: the theorem applied to a one-byte buffer with widths
`[4, 4, 6]` (14 bits requested, 2 bytes required). -/
theorem C6_witness :
    splitBits [0xCB] [4, 4, 6] true .little =
      ⟨.error .overflowError, [0xCB], 0⟩ :=
  C6_overflow [0xCB] [4, 4, 6] true .little (by decide)

/-- C7 counterexample: `split_bits` with widths `[4,4,6]` on a one-byte
buffer does not drop bits and return the first two slices — it raises
Overflow (14 bits need 2 bytes) and emits no warning at all. -/
theorem C7_counterexample :
    splitBits [0xCB] [4, 4, 6] true .little =
      ⟨.error .overflowError, [0xCB], 0⟩ :=
  rfl

/-- C7 (amended): `split_bits` with widths `[4,4,6]` on a two-byte buffer
consumes both bytes, returns the first two slices correctly (the low and
high nibbles of the first byte), returns the third slice from the low 6
bits of the second byte while dropping that byte's remaining 2 bits, and
emits exactly one warning. -/
theorem C7_amended (b0 b1 : Nat) (e : Endianness) :
    splitBits [b0, b1] [4, 4, 6] true e =
      ⟨.ok [b0 &&& 15, (b0 >>> 4) &&& 15, b1 &&& 63], [], 1⟩ := by
  cases e <;>
    simp [splitBits, splitBitsLoop, consumeSlice, orderBytes, get_mask,
      List.range_succ]

/-- `IntField.validate(val, bit_min, bit_max, min, max)` from `field.py`
(straight-line translation; the diagnostics sink's `dbg.warning` calls are
counted in the second component).  Checks the hard maximum, then the hard
minimum (each an immediate `OverflowError`), then warns on soft-minimum and
soft-maximum violations and returns the value unchanged. -/
def intFieldValidate (bitMin bitMax softMin softMax : Int) (val : Int) :
    Except PyErr Int × Nat :=
  if bitMax < val then (.error .overflowError, 0)
  else if val < bitMin then (.error .overflowError, 0)
  else
    let w1 : Nat := if val < softMin then 1 else 0
    if softMax < val then (.ok val, w1 + 1)
    else (.ok val, w1)

/-- `DynamicLengthIntField.validate` as inherited by `ReservedField`:
`super().validate(value, bit_max = 2 ** self.size)` with `bit_min = 0`
(unsigned), soft minimum `MINIMUM = 0` and soft maximum
`ReservedField.MAXIMUM = 0`.  Note the hard upper bound is `2 ** size`,
not `2 ** size - 1`. -/
def reservedValidate (size : Nat) (val : Int) : Except PyErr Int × Nat :=
  intFieldValidate 0 (2 ^ size) 0 0 val

/-- `TimeField.validate` from `field.py`, integer branch: the sentinel
`INVALID_TIME = 0x1FFFF` passes untouched; values outside the 17-bit hard
range raise `OverflowError`; values beyond `24*60*60` seconds only warn. -/
def timeFieldValidate (val : Int) : Except PyErr Int × Nat :=
  if val = 0x1FFFF then (.ok val, 0)
  else if val < 0 ∨ (2 ^ 17 - 1 : Int) < val then (.error .overflowError, 0)
  else if val < 0 ∨ (24 * 60 * 60 : Int) < val then (.ok val, 1)
  else (.ok val, 0)

/-- Python `min` over `EnumField.EnumValues`; the empty table falls back to
`BIT_LENGTH_MINIMUM = 0` (unsigned, 8 bits). -/
def enumSoftMin (table : List Int) : Int :=
  match table with
  | [] => 0
  | t :: ts => ts.foldl Min.min t

/-- Python `max` over `EnumField.EnumValues`; the empty table falls back to
`BIT_LENGTH_MAXIMUM = 2 ** 8 - 1`. -/
def enumSoftMax (table : List Int) : Int :=
  match table with
  | [] => 2 ^ 8 - 1
  | t :: ts => ts.foldl Max.max t

/-- The closed set of integer-valued Field variants whose `validate` the
source defines (`field.py`); each carries its per-class or per-instance
configuration. -/
inductive FieldVariant where
  | intF
  | bitF
  | enumF (table : List Int)
  | reservedF (size : Nat)
  | maskF (numFlags : Nat)
  | timeF
  deriving Repr

/-- The variant's `validate` classmethod: `IntField` (8 bits unsigned),
`BitField` (1 bit), `EnumField` (table hit returns the value, miss falls
back to `IntField.validate` with the table's min/max as soft bounds),
`ReservedField` (per-instance size), `MaskField` (inherits
`IntField.validate` with `BIT_LENGTH = len(Flags)`), `TimeField`. -/
def validateOf : FieldVariant → Int → Except PyErr Int × Nat
  | .intF, val => intFieldValidate 0 (2 ^ 8 - 1) 0 (2 ^ 8 - 1) val
  | .bitF, val => intFieldValidate 0 (2 ^ 1 - 1) 0 (2 ^ 1 - 1) val
  | .enumF table, val =>
    if val ∈ table then (.ok val, 0)
    else intFieldValidate 0 (2 ^ 8 - 1) (enumSoftMin table) (enumSoftMax table) val
  | .reservedF size, val => reservedValidate size val
  | .maskF numFlags, val =>
    intFieldValidate 0 (2 ^ numFlags - 1) 0 (2 ^ numFlags - 1) val
  | .timeF, val => timeFieldValidate val

/-- `Field.__setattr__` routing for `self.value = v`: the assignment stores
`validate(v)`; if `validate` raises, the assignment never happens and the
field keeps its previous stored value (the exception propagates to the
caller, who may catch it and keep using the field). -/
def setValue (fv : FieldVariant) (stored : Int) (v : Int) : Int :=
  match (validateOf fv v).1 with
  | .ok w => w
  | .error _ => stored

/-- `Field.__init__(self, value)`: the constructor runs `self.value = value`
through the same `__setattr__` routing; a `validate` failure aborts
construction (no field object exists). -/
def mkField (fv : FieldVariant) (v : Int) : Option Int :=
  match (validateOf fv v).1 with
  | .ok w => some w
  | .error _ => none

/-- A field's lifetime: construction from an initial value followed by any
sequence of assignments to its `value` attribute. -/
def runField (fv : FieldVariant) (init : Int) (assigns : List Int) :
    Option Int :=
  (mkField fv init).map (fun s => assigns.foldl (setValue fv) s)

theorem intFieldValidate_ok_eq {bitMin bitMax softMin softMax val w : Int}
    (h : (intFieldValidate bitMin bitMax softMin softMax val).1 = .ok w) :
    w = val := by
  unfold intFieldValidate at h
  split_ifs at h <;> simp_all

theorem validateOf_ok_eq (fv : FieldVariant) {val w : Int}
    (h : (validateOf fv val).1 = .ok w) : w = val := by
  cases fv <;> simp only [validateOf] at h
  case intF => exact intFieldValidate_ok_eq h
  case bitF => exact intFieldValidate_ok_eq h
  case enumF table =>
    split_ifs at h with hmem
    · simp_all
    · exact intFieldValidate_ok_eq h
  case reservedF size =>
    unfold reservedValidate at h
    exact intFieldValidate_ok_eq h
  case maskF numFlags => exact intFieldValidate_ok_eq h
  case timeF =>
    unfold timeFieldValidate at h
    split_ifs at h <;> simp_all

/-- C4 (amended): for every integer-valued Field variant (Int, Bit, Enum,
Reserved, Mask, Time) — the variants whose `validate` returns an accepted
value unchanged — after a field is constructed and after any sequence of
assignments to its `value` attribute (failed assignments keeping the
previous value), the raw stored value is one the variant's `validate`
accepts.  Every write does route through `validate` (`Field.__setattr__`
is universal), but the acceptance invariant does not extend to every
variant: `StringField.validate` returns a transformed value that
`validate` itself can reject (see the C4 counterexample below). -/
theorem C4_validate_invariant (fv : FieldVariant) (init : Int)
    (assigns : List Int) (s : Int) (h : runField fv init assigns = some s) :
    (validateOf fv s).1 = .ok s := by
  unfold runField mkField at h
  rcases hv : (validateOf fv init).1 with e | w
  · rw [hv] at h
    simp at h
  · rw [hv] at h
    have hw : w = init := validateOf_ok_eq fv hv
    subst hw
    simp at h
    have inv : ∀ (l : List Int) (t : Int), (validateOf fv t).1 = .ok t →
        (validateOf fv (l.foldl (setValue fv) t)).1 = .ok (l.foldl (setValue fv) t) := by
      intro l
      induction l with
      | nil => intro t ht; simpa using ht
      | cons a l ih =>
        intro t ht
        simp only [List.foldl_cons]
        apply ih
        unfold setValue
        rcases ha : (validateOf fv a).1 with e' | u
        · exact ht
        · have hu : u = a := validateOf_ok_eq fv ha
          subst hu
          exact ha
    rw [← h]
    exact inv assigns _ hv

/-- C4 witness: an `IntField` constructed with 5, then assigned 300 (which
`validate` rejects with Overflow, so the field keeps 5) and then 7; the
final stored value 7 passes `validate`. -/
theorem C4_witness :
    runField .intF 5 [300, 7] = some 7 ∧
      (validateOf .intF 7).1 = .ok 7 :=
  ⟨by decide, C4_validate_invariant .intF 5 [300, 7] 7 (by decide)⟩

/-- The latin-1 (ISO-8859-1) encoding performed by
`val.encode("latin-1")` in `StringField.validate` (strings are modelled
as lists of Unicode code points, byte strings as lists of byte values):
each code point up to `0xFF` becomes the byte of the same value; anything
higher raises `UnicodeEncodeError`. -/
def latin1Encode : List Nat → Except PyErr (List Nat)
  | [] => .ok []
  | c :: rest =>
    if c ≤ 0xFF then
      match latin1Encode rest with
      | .error e => .error e
      | .ok bs => .ok (c :: bs)
    else .error .unicodeEncodeError

/-- The strict UTF-8 decoding performed by `.decode()` — Python's default
codec — in `StringField.validate`: ASCII bytes stand alone; `0xC2`–`0xDF`
lead two-byte sequences, `0xE0`–`0xEF` three-byte, `0xF0`–`0xF4`
four-byte, each continuation byte in `0x80`–`0xBF`; stray continuation
bytes, the always-overlong leaders `0xC0`/`0xC1`, overlong encodings,
surrogate code points, code points above `0x10FFFF` and truncated
sequences raise `UnicodeDecodeError`. -/
def utf8Decode : List Nat → Except PyErr (List Nat)
  | [] => .ok []
  | b :: rest =>
    if b < 0x80 then
      match utf8Decode rest with
      | .error e => .error e
      | .ok s => .ok (b :: s)
    else if b < 0xC2 then .error .unicodeDecodeError
    else if b < 0xE0 then
      match rest with
      | c1 :: rest2 =>
        if c1 < 0x80 ∨ 0xBF < c1 then .error .unicodeDecodeError
        else
          match utf8Decode rest2 with
          | .error e => .error e
          | .ok s => .ok (((b - 0xC0) * 0x40 + (c1 - 0x80)) :: s)
      | [] => .error .unicodeDecodeError
    else if b < 0xF0 then
      match rest with
      | c1 :: c2 :: rest2 =>
        if c1 < 0x80 ∨ 0xBF < c1 ∨ c2 < 0x80 ∨ 0xBF < c2 then
          .error .unicodeDecodeError
        else
          let cp := (b - 0xE0) * 0x1000 + (c1 - 0x80) * 0x40 + (c2 - 0x80)
          if cp < 0x800 ∨ (0xD800 ≤ cp ∧ cp ≤ 0xDFFF) then
            .error .unicodeDecodeError
          else
            match utf8Decode rest2 with
            | .error e => .error e
            | .ok s => .ok (cp :: s)
      | _ => .error .unicodeDecodeError
    else if b ≤ 0xF4 then
      match rest with
      | c1 :: c2 :: c3 :: rest2 =>
        if c1 < 0x80 ∨ 0xBF < c1 ∨ c2 < 0x80 ∨ 0xBF < c2 ∨
            c3 < 0x80 ∨ 0xBF < c3 then
          .error .unicodeDecodeError
        else
          let cp := (b - 0xF0) * 0x40000 + (c1 - 0x80) * 0x1000 +
            (c2 - 0x80) * 0x40 + (c3 - 0x80)
          if cp < 0x10000 ∨ 0x10FFFF < cp then .error .unicodeDecodeError
          else
            match utf8Decode rest2 with
            | .error e => .error e
            | .ok s => .ok (cp :: s)
      | _ => .error .unicodeDecodeError
    else .error .unicodeDecodeError

/-- `StringField.validate(val)` from `field.py`:
`encoded_string = val.encode(cls.ENCODING).decode()` — a latin-1 encode
followed by a decode with Python's default UTF-8 codec — then
`encoded_string` is returned if its length is at most `MAX_LENGTH = 256`,
else `ValueError` is raised. -/
def stringValidate (val : List Nat) : Except PyErr (List Nat) :=
  match latin1Encode val with
  | .error e => .error e
  | .ok bs =>
    match utf8Decode bs with
    | .error e => .error e
    | .ok s => if s.length ≤ 256 then .ok s else .error .valueError

/-- `Field.__init__`/`__setattr__` routing applied to a `StringField`:
the stored value is whatever `validate` returns; a raising `validate`
aborts construction. -/
def mkStringField (v : List Nat) : Option (List Nat) :=
  match stringValidate v with
  | .ok w => some w
  | .error _ => none

/-- C4 counterexample: `StringField` breaks the claimed invariant.
Validating the two-code-point string "Ã©" (`[0xC3, 0xA9]`) latin-1
encodes it to the bytes `C3 A9`, which UTF-8 decode to the single code
point "é" (`[0xE9]`) — so a field constructed from "Ã©" stores "é" — yet
validating the stored "é" fails: its latin-1 byte `E9` is a three-byte
UTF-8 leader with no continuation bytes, so the decode raises
`UnicodeDecodeError`.  The field therefore holds a raw value its own
variant's `validate` rejects, even though the value was stored through
`validate`. -/
theorem C4_counterexample :
    mkStringField [0xC3, 0xA9] = some [0xE9] ∧
      stringValidate [0xE9] = .error .unicodeDecodeError :=
  ⟨rfl, rfl⟩

/-- C10: `ReservedField`'s validate (inherited from
`DynamicLengthIntField`) raises Overflow exactly when the value is negative
or exceeds `2 ** size`; the boundary value `2 ** size` itself — one more
than the largest value representable in `size` bits — is accepted, with
exactly one (soft-maximum) warning, because the hard upper bound passed to
`IntField.validate` is `2 ** self.size` rather than `2 ** self.size - 1`. -/
theorem C10_reserved_validate (n : Nat) (v : Int) :
    ((reservedValidate n v).1 = .error .overflowError ↔
        v < 0 ∨ (2 ^ n : Int) < v) ∧
      (reservedValidate n (2 ^ n)).1 = .ok (2 ^ n) ∧
      (reservedValidate n (2 ^ n)).2 = 1 := by
  have hpos : (0 : Int) < 2 ^ n := by positivity
  unfold reservedValidate intFieldValidate
  refine ⟨?_, ?_, ?_⟩
  · split_ifs <;> simp <;> omega
  · split_ifs <;> first | rfl | omega
  · split_ifs <;> first | rfl | omega

/-- MaskField attribute lookup for `self.MASK`: neither `MaskField` nor any
ancestor (`IntField`, `Field`, `ProtocolBlock`) defines a `MASK` attribute
or a `__getattr__` hook, so the lookup yields no value and Python raises
`AttributeError`. -/
def maskFieldMASK : Option Int := none

/-- `MaskField.__and__`: `(self.value & val) & self.MASK`; evaluating
`self.MASK` raises `AttributeError` (the attribute is undefined). -/
def maskAnd (value operand : Int) : Except PyErr Int :=
  match maskFieldMASK with
  | none => .error .attributeError
  | some m => .ok (Int.land (Int.land value operand) m)

/-- `MaskField.__or__`: `(self.value | val) & self.MASK`. -/
def maskOr (value operand : Int) : Except PyErr Int :=
  match maskFieldMASK with
  | none => .error .attributeError
  | some m => .ok (Int.land (Int.lor value operand) m)

/-- `MaskField.__xor__`: `(self.value ^ val) & self.MASK`. -/
def maskXor (value operand : Int) : Except PyErr Int :=
  match maskFieldMASK with
  | none => .error .attributeError
  | some m => .ok (Int.land (Int.xor value operand) m)

/-- `MaskField.__invert__`: `(~self.value) & self.MASK`; Python's `~value`
is `-(value + 1)`. -/
def maskInvert (value : Int) : Except PyErr Int :=
  match maskFieldMASK with
  | none => .error .attributeError
  | some m => .ok (Int.land (Int.lnot value) m)

/-- `MaskField.__lshift__`: `(self.value << places) & get_mask(BIT_LENGTH)`
with `BIT_LENGTH = len(Flags)`; this operator does not touch `MASK` and
works.  Stored values have passed unsigned validation, hence `Nat`. -/
def maskLshift (numFlags : Nat) (value : Nat) (places : Nat) : Nat :=
  (value <<< places) &&& get_mask numFlags 0

/-- `MaskField.__rshift__`: `(self.value >> places) & get_mask(BIT_LENGTH)`. -/
def maskRshift (numFlags : Nat) (value : Nat) (places : Nat) : Nat :=
  (value >>> places) &&& get_mask numFlags 0

/-- C5: on a Mask field with three named flags holding raw value 5 (flags 0
and 2 set), the shift operators do truncate to the 3-bit mask width, but
the bitwise AND, OR, XOR and NOT operators all raise `AttributeError`
instead of returning a truncated result, because they reference the
undefined attribute `self.MASK`; in particular `field & 255` does not
truncate to mask width as claimed — it raises. -/
theorem C5_mask_ops :
    maskAnd 5 255 = .error .attributeError ∧
      maskOr 5 255 = .error .attributeError ∧
      maskXor 5 255 = .error .attributeError ∧
      maskInvert 5 = .error .attributeError ∧
      maskLshift 3 5 1 = 2 ∧
      maskRshift 3 5 1 = 2 :=
  ⟨rfl, rfl, rfl, rfl, by decide, by decide⟩

/-- `PackedIntField.pack` from `field.py`, instantiated with the
specification's example configuration `UNPACKED_MINIMUM = 0`,
`UNPACKED_RESOLUTION = 0.5`, `BIT_LENGTH = 8` (unsigned, so
`BIT_LENGTH_MINIMUM = 0` and `BIT_LENGTH_MAXIMUM = 255`):
`packed = (val - UNPACKED_MINIMUM) / UNPACKED_RESOLUTION`, then
`ValueError` when `packed` is not integral, exceeds 255, or is below 0,
else `int(packed)`.  The human-facing values are modelled in `ℚ`; the
dyadic values involved are exact in Python's binary floats, so the
rational model matches the float arithmetic on them. -/
def packedIntPack (val : ℚ) : Except PyErr ℤ :=
  let packed := (val - 0) / (1 / 2)
  if packed.den ≠ 1 then .error .valueError
  else if (255 : ℚ) < packed then .error .valueError
  else if packed < 0 then .error .valueError
  else .ok packed.num

/-- `PackedIntField.enrich` for the same configuration:
`bound(UNPACKED_MINIMUM + value * UNPACKED_RESOLUTION)` where `bound`
clamps to `[UNPACKED_MINIMUM, UNPACKED_MAXIMUM]` and
`UNPACKED_MAXIMUM = UNPACKED_MINIMUM + BIT_LENGTH_MAXIMUM *
UNPACKED_RESOLUTION = 0 + 255 * 0.5`. -/
def packedIntEnrich (raw : ℤ) : ℚ :=
  max (min (0 + (raw : ℚ) * (1 / 2)) (0 + 255 * (1 / 2))) 0

/-- C8: for the PackedInt configuration `unpacked_min = 0`,
`resolution = 0.5`, bit width 8: `pack(1.25)` fails (2.5 is not integral),
`pack(1.5)` returns raw 3, `enrich(3)` returns 1.5, and in general for any
human value in `[0, 127.5]` that is an exact multiple of the resolution
(i.e. `(human - unpacked_min) / resolution` is an integer), `enrich`
inverts `pack`. -/
theorem C8_packedInt (q : ℚ) (h0 : 0 ≤ q) (h1 : q ≤ 255 / 2)
    (hres : ((q - 0) / (1 / 2)).den = 1) :
    packedIntPack (5 / 4) = .error .valueError ∧
      packedIntPack (3 / 2) = .ok 3 ∧
      packedIntEnrich 3 = 3 / 2 ∧
      ∃ r, packedIntPack q = .ok r ∧ packedIntEnrich r = q := by
  refine ⟨?_, ?_, ?_, ?_⟩
  · simp only [packedIntPack]
    norm_num
  · simp only [packedIntPack]
    norm_num
  · unfold packedIntEnrich
    rw [min_eq_left (by norm_num), max_eq_left (by norm_num)]
    norm_num
  · have hp2 : (q - 0) / (1 / 2) = 2 * q := by
      field_simp
      ring
    refine ⟨((q - 0) / (1 / 2)).num, ?_, ?_⟩
    · simp only [packedIntPack]
      rw [if_neg (by simp only [hres]; simp),
        if_neg (by rw [hp2]; push_neg; linarith),
        if_neg (by rw [hp2]; push_neg; linarith)]
    · unfold packedIntEnrich
      have hval : ((((q - 0) / (1 / 2)).num : ℚ)) = (q - 0) / (1 / 2) := by
        conv_rhs => rw [← Rat.num_div_den ((q - 0) / (1 / 2))]
        rw [hres]
        simp
      rw [hval, hp2]
      have h2 : 0 + 2 * q * (1 / 2) = q := by ring
      have h3 : (0 + 255 * (1 / 2) : ℚ) = 255 / 2 := by norm_num
      rw [h2, h3, min_eq_left h1, max_eq_left h0]

/-- C8 witness: the theorem applied at the human value `q = 1.5`. -/
theorem C8_witness :
    packedIntPack (5 / 4) = .error .valueError ∧
      packedIntPack (3 / 2) = .ok 3 ∧
      packedIntEnrich 3 = 3 / 2 ∧
      ∃ r, packedIntPack (3 / 2) = .ok r ∧ packedIntEnrich r = 3 / 2 :=
  C8_packedInt (3 / 2) (by norm_num) (by norm_num) (by norm_num)

/-- `value.to_bytes(num_bytes, byteorder="little", signed=False)`: the
little-endian byte rendering used by `pack_int`. -/
def natToLE : Nat → Nat → List Nat
  | _, 0 => []
  | value, n + 1 => value % 256 :: natToLE (value / 256) n

/-- `int.from_bytes(bytes, byteorder="little", signed=False)` as used by
`get_int` with the default endianness. -/
def leToNat : List Nat → Nat
  | [] => 0
  | b :: rest => b + 256 * leToNat rest

/-- `pack_int(value, num_bytes, signed=False, endianness="little")` from
`__init__.py`: `OverflowError` when `num_bytes < 1` or the value's bit
length exceeds `num_bytes * 8` (for a nonnegative value,
`value.bit_length() > num_bytes * 8` holds iff `2 ^ (num_bytes * 8) ≤
value`); otherwise the value's little-endian bytes. -/
def packInt (value : Nat) (numBytes : Nat) : Except PyErr (List Nat) :=
  if numBytes < 1 ∨ 2 ^ (numBytes * 8) ≤ value then .error .overflowError
  else .ok (natToLE value numBytes)

/-- `get_int(stream, num_bytes, signed=False, consume=True,
endianness="little")` from `__init__.py`: pops `num_bytes` bytes
(`IndexError` on underrun, via `pop_bytes`) and decodes them as a
little-endian unsigned integer; returns the integer and the stream's
remaining bytes. -/
def getIntLE (stream : List Nat) (numBytes : Nat) :
    Except PyErr (Nat × List Nat) :=
  match popBytes stream numBytes with
  | (some bs, rest) => .ok (leToNat bs, rest)
  | (none, _) => .error .indexError

mutual
/-- A populated protocol-block field, restricted to the variants the block
tree claims exercise: `IntField` (key, configured `BIT_LENGTH`, raw value),
`ReservedField` (key, per-instance `size`, raw value), `BlockField` (key,
nested block), `BlockListField` (key, ordered nested blocks). -/
inductive PField where
  | intF : String → Nat → Nat → PField
  | reservedF : String → Nat → Nat → PField
  | blockF : String → PBlock → PField
  | blockListF : String → PBlockList → PField

/-- A `ProtocolBlock`'s `self.fields`: an ordered association of keys to
fields (insertion order = declaration order = wire order). -/
inductive PBlock where
  | bnil : PBlock
  | bcons : PField → PBlock → PBlock

/-- The ordered `ProtocolBlock` elements stored by a `BlockListField`. -/
inductive PBlockList where
  | lnil : PBlockList
  | lcons : PBlock → PBlockList → PBlockList
end

/-- The key under which a field is stored in its enclosing block. -/
def fieldName : PField → String
  | .intF name _ _ => name
  | .reservedF name _ _ => name
  | .blockF name _ => name
  | .blockListF name _ => name

mutual
/-- Per-field serialization from the source: `IntField.to_bytes`
(inherited by `ReservedField` with its per-instance bit length) is
`pack_int(self.value, ceil(bit_length / 8), signed=False,
endianness="little")`; `BlockField.to_bytes` delegates to the nested
block; `BlockListField.to_bytes` is the source method embedded below as
`listToBytes`. -/
def fieldToBytes : PField → Except PyErr (List Nat)
  | .intF _ bitLength v => packInt v ((bitLength + 7) / 8)
  | .reservedF _ size v => packInt v ((size + 7) / 8)
  | .blockF _ b => blockToBytes b
  | .blockListF _ l => listToBytes l

/-- Modelled from the spec: `ProtocolBlock.to_bytes` is abstract in the
source (each concrete protocol overrides it), so the block-level driver
follows §4.4, "concatenates each declared field's `to_bytes()` output in
the same declaration order". -/
def blockToBytes : PBlock → Except PyErr (List Nat)
  | .bnil => .ok []
  | .bcons f rest =>
    match fieldToBytes f with
    | .error e => .error e
    | .ok a =>
      match blockToBytes rest with
      | .error e => .error e
      | .ok b => .ok (a ++ b)

/-- `BlockListField.to_bytes` from `field.py`:
`for f in self.value: mybytes += f.value.to_bytes()`.  The stored
elements are `ProtocolBlock`s (the class docstring and every other method
— `__iter__`, `_get_object_dict`, `_enrich_object_dict`,
`print_up_to_error` — treat them so), and a plain `ProtocolBlock` has no
`value` attribute, so the first loop iteration raises `AttributeError`;
only the empty list yields bytes (the empty bytearray, the loop body
never running). -/
def listToBytes : PBlockList → Except PyErr (List Nat)
  | .lnil => .ok []
  | .lcons _ _ => .error .attributeError
end

/-- `IntField.from_bytes(cls, stream, num_bytes=1, signed=False,
consume=True, endianness="little")` from `field.py`: unless
`num_bytes % 8 == 0` it raises `ValueError` — its message, "Cannot get an
even number of bytes for {num_bytes}-bitlength integer", shows the guard
conflates bits with bytes — otherwise it reads `num_bytes` bytes via
`bintools.get_int` (little-endian unsigned by default). -/
def intFieldFromBytes (stream : List Nat) (numBytes : Nat) :
    Except PyErr (Nat × List Nat) :=
  if numBytes % 8 = 0 then getIntLE stream numBytes
  else .error .valueError

/-- `BlockField.from_bytes(cls, stream, num_bytes=1, consume=True)` from
`field.py`: its body is `return cls.from_bytes(stream)` — an
unconditional call to itself with the same stream — so no recursion depth
suffices.  `fuel` models Python's recursion limit; its exhaustion raises
`RecursionError`. -/
def blockFieldFromBytes : Nat → List Nat → Except PyErr (PBlock × List Nat)
  | 0, _ => .error .recursionError
  | fuel + 1, stream => blockFieldFromBytes fuel stream

/-- `BlockListField.from_bytes(stream)` from `field.py`: declared
`@classmethod` with the single parameter `stream` (which therefore
receives the class object), its body `self.TYPE.from_bytes(stream)`
references the free name `self`, which is unbound — the call raises
`NameError` before reading any byte. -/
def blockListFieldFromBytes (_stream : List Nat) :
    Except PyErr (PBlockList × List Nat) :=
  .error .nameError

theorem blockFieldFromBytes_never :
    ∀ (fuel : Nat) (stream : List Nat),
      blockFieldFromBytes fuel stream = .error .recursionError
  | 0, _ => rfl
  | fuel + 1, stream => blockFieldFromBytes_never fuel stream

/-- C2: the claimed round trip cannot succeed on the code as written.
`to_bytes` of an unsigned 8-bit `IntField` holding 7 produces the single
byte `[7]`, but the source's field-level deserializers cannot read it
back: `IntField.from_bytes` raises `ValueError` for the one-byte read
that width requires (its `num_bytes % 8 == 0` guard conflates bits with
bytes), `BlockField.from_bytes` never returns at any recursion depth (it
calls itself unconditionally), and `BlockListField.from_bytes` raises
`NameError` (unbound `self`); on the write side,
`BlockListField.to_bytes` raises `AttributeError` on every non-empty list
of `ProtocolBlock` elements. -/
theorem C2_roundtrip_broken :
    fieldToBytes (.intF "a" 8 7) = .ok [7] ∧
      intFieldFromBytes [7] 1 = .error .valueError ∧
      (∀ (fuel : Nat) (stream : List Nat),
        blockFieldFromBytes fuel stream = .error .recursionError) ∧
      (∀ stream : List Nat,
        blockListFieldFromBytes stream = .error .nameError) ∧
      (∀ (b : PBlock) (l : PBlockList),
        listToBytes (.lcons b l) = .error .attributeError) :=
  ⟨rfl, rfl, blockFieldFromBytes_never, fun _ => rfl, fun _ _ => rfl⟩


mutual
/-- The JSON-like trees built by `ProtocolBlock._get_object_dict` and
`_enrich_object_dict`: a leaf value, a nested object (ordered key/value
pairs — a Python dict preserves insertion order), or an array. -/
inductive RVal where
  | num : Nat → RVal
  | obj : RObj → RVal
  | arr : RArr → RVal

/-- Ordered key/value pairs of an object node. -/
inductive RObj where
  | onil : RObj
  | ocons : String → RVal → RObj → RObj

/-- Ordered elements of an array node. -/
inductive RArr where
  | anil : RArr
  | acons : RVal → RArr → RArr
end

mutual
/-- `ProtocolBlock._get_object_dict` from `protocol_block.py`: every field
key is included; `BlockListField` fields expand to a list of their
elements' dicts, `BlockField` fields recurse, every other field
contributes its raw `f.value`. -/
def rawObj : PBlock → RObj
  | .bnil => .onil
  | .bcons f rest => .ocons (fieldName f) (rawVal f) (rawObj rest)

/-- The value `_get_object_dict` stores for a single field. -/
def rawVal : PField → RVal
  | .intF _ _ v => .num v
  | .reservedF _ _ v => .num v
  | .blockF _ b => .obj (rawObj b)
  | .blockListF _ l => .arr (rawArr l)

/-- The list `_get_object_dict` stores for a `BlockListField`. -/
def rawArr : PBlockList → RArr
  | .lnil => .anil
  | .lcons b rest => .acons (.obj (rawObj b)) (rawArr rest)
end

mutual
/-- `ProtocolBlock._enrich_object_dict` from `protocol_block.py`:
`ReservedField` entries are skipped (`continue`), `BlockListField` fields
recurse element-wise, `BlockField` fields recurse, and every other field
contributes `f.enrich()` — for an `IntField` of width `L` that is
`max(min(value, BIT_LENGTH_MAXIMUM), BIT_LENGTH_MINIMUM)` with unsigned
bounds `[0, 2 ^ L - 1]`. -/
def enrichObj : PBlock → RObj
  | .bnil => .onil
  | .bcons (.reservedF _ _ _) rest => enrichObj rest
  | .bcons (.blockListF name l) rest =>
    .ocons name (.arr (enrichArr l)) (enrichObj rest)
  | .bcons (.blockF name b) rest =>
    .ocons name (.obj (enrichObj b)) (enrichObj rest)
  | .bcons (.intF name bitLength v) rest =>
    .ocons name (.num (max (min v (2 ^ bitLength - 1)) 0)) (enrichObj rest)

/-- The enriched list for a `BlockListField`. -/
def enrichArr : PBlockList → RArr
  | .lnil => .anil
  | .lcons b rest => .acons (.obj (enrichObj b)) (enrichArr rest)
end

/-- The keys of an object node, in order. -/
def objKeys : RObj → List String
  | .onil => []
  | .ocons k _ rest => k :: objKeys rest

/-- The keys of a block's field dict, in declaration order. -/
def blockNames : PBlock → List String
  | .bnil => []
  | .bcons f rest => fieldName f :: blockNames rest

/-- Membership of a field among a block's direct fields. -/
def blockHasField : PBlock → PField → Prop
  | .bnil, _ => False
  | .bcons f rest, g => g = f ∨ blockHasField rest g

mutual
/-- Key uniqueness of every block of the tree — the invariant Python's
dict-backed `self.fields` guarantees (a dict cannot hold a key twice). -/
def blockNodup : PBlock → Bool
  | .bnil => true
  | .bcons f rest =>
    decide (fieldName f ∉ blockNames rest) && fieldNodup f && blockNodup rest

/-- `blockNodup` for the blocks nested inside one field. -/
def fieldNodup : PField → Bool
  | .intF _ _ _ => true
  | .reservedF _ _ _ => true
  | .blockF _ b => blockNodup b
  | .blockListF _ l => listNodup l

/-- `blockNodup` for every element of a block list. -/
def listNodup : PBlockList → Bool
  | .lnil => true
  | .lcons b rest => blockNodup b && listNodup rest
end

/-- At one block: every Reserved field's key is absent from the enriched
object and present in the raw object. -/
def reservedOmittedAt (b : PBlock) : Prop :=
  ∀ name sz v, blockHasField b (.reservedF name sz v) →
    name ∉ objKeys (enrichObj b) ∧ name ∈ objKeys (rawObj b)

mutual
/-- `reservedOmittedAt` for every block nested anywhere below the fields
of a block. -/
def blockFieldsDeep : PBlock → Prop
  | .bnil => True
  | .bcons f rest => fieldDeep f ∧ blockFieldsDeep rest

/-- `reservedOmittedAt` holds for the block(s) inside this field and all
their descendants. -/
def fieldDeep : PField → Prop
  | .intF _ _ _ => True
  | .reservedF _ _ _ => True
  | .blockF _ b => reservedOmittedAt b ∧ blockFieldsDeep b
  | .blockListF _ l => listDeep l

/-- `fieldDeep` lifted to block lists. -/
def listDeep : PBlockList → Prop
  | .lnil => True
  | .lcons b rest => (reservedOmittedAt b ∧ blockFieldsDeep b) ∧ listDeep rest
end

theorem objKeys_rawObj : ∀ b : PBlock, objKeys (rawObj b) = blockNames b
  | .bnil => rfl
  | .bcons f rest => by
    simp [rawObj, objKeys, blockNames, objKeys_rawObj rest]

theorem hasField_name_mem :
    ∀ (b : PBlock) (g : PField), blockHasField b g → fieldName g ∈ blockNames b
  | .bnil, g, h => by simp [blockHasField] at h
  | .bcons f rest, g, h => by
    simp only [blockHasField] at h
    simp only [blockNames, List.mem_cons]
    cases h with
    | inl he => exact Or.inl (by rw [he])
    | inr hr => exact Or.inr (hasField_name_mem rest g hr)

theorem objKeys_enrichObj_subset :
    ∀ b : PBlock, objKeys (enrichObj b) ⊆ blockNames b
  | .bnil => by simp [enrichObj, objKeys, blockNames]
  | .bcons f rest => by
    cases f with
    | reservedF name sz v =>
      simp only [enrichObj, blockNames]
      exact (objKeys_enrichObj_subset rest).trans (List.subset_cons_self _ _)
    | intF name bitLength v =>
      simp only [enrichObj, objKeys, blockNames, fieldName]
      exact List.cons_subset_cons _ (objKeys_enrichObj_subset rest)
    | blockF name b =>
      simp only [enrichObj, objKeys, blockNames, fieldName]
      exact List.cons_subset_cons _ (objKeys_enrichObj_subset rest)
    | blockListF name l =>
      simp only [enrichObj, objKeys, blockNames, fieldName]
      exact List.cons_subset_cons _ (objKeys_enrichObj_subset rest)

theorem reserved_not_in_enrich :
    ∀ (b : PBlock), (blockNames b).Nodup →
      ∀ name sz v, blockHasField b (.reservedF name sz v) →
        name ∉ objKeys (enrichObj b)
  | .bnil, _, name, sz, v, h => by simp [blockHasField] at h
  | .bcons f rest, hnd, name, sz, v, h => by
    simp only [blockHasField] at h
    simp only [blockNames, List.nodup_cons] at hnd
    obtain ⟨hf, hrest⟩ := hnd
    cases h with
    | inl he =>
      subst he
      simp only [enrichObj]
      intro hmem
      exact hf (by simpa [fieldName] using objKeys_enrichObj_subset rest hmem)
    | inr hr =>
      have hn : name ∈ blockNames rest := by
        simpa [fieldName] using hasField_name_mem rest _ hr
      cases f with
      | reservedF n2 s2 v2 =>
        simp only [enrichObj]
        exact reserved_not_in_enrich rest hrest name sz v hr
      | intF n2 L2 v2 =>
        simp only [enrichObj, objKeys, List.mem_cons]
        push_neg
        refine ⟨?_, reserved_not_in_enrich rest hrest name sz v hr⟩
        intro heq
        exact hf (by rw [fieldName, ← heq]; exact hn)
      | blockF n2 b2 =>
        simp only [enrichObj, objKeys, List.mem_cons]
        push_neg
        refine ⟨?_, reserved_not_in_enrich rest hrest name sz v hr⟩
        intro heq
        exact hf (by rw [fieldName, ← heq]; exact hn)
      | blockListF n2 l2 =>
        simp only [enrichObj, objKeys, List.mem_cons]
        push_neg
        refine ⟨?_, reserved_not_in_enrich rest hrest name sz v hr⟩
        intro heq
        exact hf (by rw [fieldName, ← heq]; exact hn)

theorem blockNames_nodup :
    ∀ b : PBlock, blockNodup b = true → (blockNames b).Nodup
  | .bnil, _ => by simp [blockNames]
  | .bcons f rest, h => by
    simp only [blockNodup, Bool.and_eq_true, decide_eq_true_eq] at h
    obtain ⟨⟨hc, _⟩, hr⟩ := h
    simp only [blockNames, List.nodup_cons]
    exact ⟨hc, blockNames_nodup rest hr⟩

mutual
theorem blockDeep_of_nodup : ∀ b : PBlock, blockNodup b = true →
    reservedOmittedAt b ∧ blockFieldsDeep b
  | .bnil, _ => by
    constructor
    · intro name sz v h
      simp [blockHasField] at h
    · simp [blockFieldsDeep]
  | .bcons f rest, h => by
    have hnod : (blockNames (.bcons f rest)).Nodup := blockNames_nodup _ h
    simp only [blockNodup, Bool.and_eq_true, decide_eq_true_eq] at h
    obtain ⟨⟨_, hfn⟩, hrn⟩ := h
    constructor
    · intro name sz v hh
      refine ⟨reserved_not_in_enrich _ hnod name sz v hh, ?_⟩
      rw [objKeys_rawObj]
      simpa [fieldName] using hasField_name_mem _ _ hh
    · simp only [blockFieldsDeep]
      exact ⟨fieldDeep_of_nodup f hfn, (blockDeep_of_nodup rest hrn).2⟩

theorem fieldDeep_of_nodup : ∀ f : PField, fieldNodup f = true → fieldDeep f
  | .intF _ _ _, _ => by simp [fieldDeep]
  | .reservedF _ _ _, _ => by simp [fieldDeep]
  | .blockF _ b, h => by
    simp only [fieldDeep]
    exact blockDeep_of_nodup b (by simpa [fieldNodup] using h)
  | .blockListF _ l, h => by
    simp only [fieldDeep]
    exact listDeep_of_nodup l (by simpa [fieldNodup] using h)

theorem listDeep_of_nodup : ∀ l : PBlockList, listNodup l = true → listDeep l
  | .lnil, _ => by simp [listDeep]
  | .lcons b rest, h => by
    simp only [listNodup, Bool.and_eq_true] at h
    simp only [listDeep]
    exact ⟨blockDeep_of_nodup b h.1, listDeep_of_nodup rest h.2⟩
end

/-- C9: for every Protocol Block tree (with the per-block key uniqueness a
Python dict guarantees), every Reserved field it contains at any nesting
level has its key omitted from the enriched tree view
(`_enrich_object_dict`) of its enclosing block, while the raw tree view
(`_get_object_dict`) of that block does include it:
`reservedOmittedAt` states this for the top-level block and
`blockFieldsDeep` propagates it to every nested block (through Block and
BlockList fields alike). -/
theorem C9_reserved_views (b : PBlock) (h : blockNodup b = true) :
    reservedOmittedAt b ∧ blockFieldsDeep b :=
  blockDeep_of_nodup b h

/-- A tree holding Reserved fields at three different nesting levels for
the C9 witness. -/
def C9demo : PBlock :=
  .bcons (.intF "a" 8 1)
    (.bcons (.reservedF "r0" 8 0)
      (.bcons (.blockF "sub"
          (.bcons (.reservedF "r1" 4 2) (.bcons (.intF "b" 4 3) .bnil)))
        (.bcons (.blockListF "items"
            (.lcons (.bcons (.reservedF "r2" 8 5) .bnil) .lnil)) .bnil)))

/-- C9 witness: the theorem applied to the concrete tree with Reserved
fields at the top level, inside a nested block, and inside a block-list
element. -/
theorem C9_witness :
    blockNodup C9demo = true ∧
      (reservedOmittedAt C9demo ∧ blockFieldsDeep C9demo) :=
  ⟨by decide, C9_reserved_views C9demo (by decide)⟩
